import Mathlib

/-!
Verification of the gokiq background-job orchestrator.

This file gives a shallow embedding of the orchestrator's components in Lean 4
and proves the spec's claims about them:

* the job record and result model (`SidekiqJob`, `JobResult`);
* the channel-based semaphore (`Semaphore`, from
  `go_worker/internal/concurrency/semaphore.go`);
* the circuit breaker (`CircuitBreaker`, from
  `go_worker/internal/job/interfaces.go`, sidecar section);
* the HTTP executor client's transport retry loop (`executeWithRetry`);
* the store adapter (`Client.PollJobs`, `Client.EnqueueRetry`,
  `Client.MoveToDLQ`, from `internal/redis/client.go`);
* the gRPC client's argument projection (`grpc_client.go`);
* the concurrent processor's task body and shutdown
  (`internal/concurrency/processor.go`) and the supervisor loop
  (`cmd/worker/main.go`).

Machine integers are modelled as `Int`/`Nat`; epoch timestamps as `Int`
seconds (the source only ever stores `float64(time.Now().Unix())`, an
integral value, into the fields the claims reason about).  Stateful Go code
becomes explicit state passing; goroutine-local sequential code becomes a
function from the call's inputs (including the outcomes of external calls,
passed as oracles) to its results and its externally visible effects.
-/

namespace Gokiq

/-! ## Job record and result model -/

/-- A decoded JSON argument as carried in a Go `interface{}` after
`json.Unmarshal`.  Strings, booleans and null decode to `string`, `bool` and
`nil`.  JSON numbers decode to `float64`; the `num` constructor models the
integer-valued numbers of magnitude at most 2^53, which `float64` represents
exactly and whose shortest round-trippable decimal digits are the integer's
own digits (with trailing zeros folded into the exponent in e-notation). -/
inductive GoValue where
  | str (s : String)
  | num (n : Int)
  | boolean (b : Bool)
  | null
deriving DecidableEq, Repr

/-- The Sidekiq-compatible job record (`internal/job`: `type SidekiqJob
struct`).  `created_at`, `enqueued_at`, `failed_at` are epoch seconds. -/
structure SidekiqJob where
  Class : String
  Args : List GoValue
  JID : String
  Queue : String
  CreatedAt : Int
  EnqueuedAt : Int
  Retry : Int
  FailedAt : Int
  ErrorMsg : String
  ErrorClass : String
deriving DecidableEq, Repr

/-- The executor's structured result (`type JobResult struct`). -/
structure JobResult where
  Status : String
  Result : String
  ExecutionTime : Int
  ErrorMessage : String
deriving DecidableEq, Repr

/-- A sample job record, used to instantiate theorems at concrete inputs. -/
def sampleJob : SidekiqJob :=
  { Class := "HardWorkJob"
    Args := [GoValue.str "User", GoValue.num 2]
    JID := "job-1"
    Queue := "default"
    CreatedAt := 0
    EnqueuedAt := 0
    Retry := 0
    FailedAt := 0
    ErrorMsg := ""
    ErrorClass := "" }

/-! ## Semaphore (`internal/concurrency/semaphore.go`)

The Go semaphore couples a buffered channel `ch` (capacity `capacity`) with
an `active` counter of type `int` guarded by a mutex.  In the sequential
trace semantics an operation completes atomically: a (Try)Acquire completes
successfully exactly when the channel has room (`chanLen < capacity`);
a blocked or context-cancelled Acquire leaves the state unchanged and
reports `false`; Release takes the `default` branch (a no-op) when the
channel is empty. -/

/-- State of a `Semaphore`: the buffered channel's fill level and the
mutex-guarded `active` counter (a Go `int`, hence `Int` here). -/
structure Semaphore where
  capacity : Nat
  chanLen : Nat
  active : Int
deriving DecidableEq, Repr

/-- `NewSemaphore`: non-positive capacity is clamped to 1; the channel
starts empty and the active count at 0. -/
def NewSemaphore (capacity : Int) : Semaphore :=
  if capacity ≤ 0 then { capacity := 1, chanLen := 0, active := 0 }
  else { capacity := capacity.toNat, chanLen := 0, active := 0 }

/-- `Semaphore.Acquire`: the channel send succeeds exactly when the buffer
has room, in which case `active` is incremented; otherwise the caller is
blocked or its context fires, returning `false` with the state unchanged. -/
def Semaphore.Acquire (s : Semaphore) : Bool × Semaphore :=
  if s.chanLen < s.capacity then
    (true, { s with chanLen := s.chanLen + 1, active := s.active + 1 })
  else (false, s)

/-- `Semaphore.TryAcquire`: non-blocking variant; the `default` branch fires
when the buffer is full. -/
def Semaphore.TryAcquire (s : Semaphore) : Bool × Semaphore :=
  if s.chanLen < s.capacity then
    (true, { s with chanLen := s.chanLen + 1, active := s.active + 1 })
  else (false, s)

/-- `Semaphore.Release`: receives one token and decrements `active`; the
`default` branch makes it a no-op on an empty channel. -/
def Semaphore.Release (s : Semaphore) : Semaphore :=
  if 0 < s.chanLen then
    { s with chanLen := s.chanLen - 1, active := s.active - 1 }
  else s

/-- One completed client operation on the semaphore. -/
inductive SemOp where
  | acquireOp
  | tryAcquireOp
  | releaseOp
deriving DecidableEq, Repr

/-- Apply one operation to the semaphore state. -/
def Semaphore.step (s : Semaphore) : SemOp → Semaphore
  | SemOp.acquireOp => (s.Acquire).2
  | SemOp.tryAcquireOp => (s.TryAcquire).2
  | SemOp.releaseOp => s.Release

/-- Run a sequence of completed operations. -/
def Semaphore.run (s : Semaphore) (ops : List SemOp) : Semaphore :=
  ops.foldl Semaphore.step s

/-- The semaphore's internal consistency: the mutex-guarded counter tracks
the channel fill level, which never exceeds the capacity. -/
def Semaphore.Inv (s : Semaphore) : Prop :=
  s.active = (s.chanLen : Int) ∧ s.chanLen ≤ s.capacity

theorem Semaphore.step_inv (s : Semaphore) (op : SemOp) (h : s.Inv) :
    (s.step op).Inv := by
  obtain ⟨h1, h2⟩ := h
  cases op <;>
    simp only [Semaphore.step, Semaphore.Acquire, Semaphore.TryAcquire,
      Semaphore.Release] <;>
    split <;>
    constructor <;>
    simp_all <;>
    omega

theorem Semaphore.run_inv (ops : List SemOp) (s : Semaphore) (h : s.Inv) :
    (s.run ops).Inv := by
  induction ops generalizing s with
  | nil => exact h
  | cons op ops ih =>
    exact ih (s.step op) (s.step_inv op h)

theorem NewSemaphore_inv (c : Int) : (NewSemaphore c).Inv := by
  unfold NewSemaphore Semaphore.Inv
  split <;> simp

theorem Semaphore.step_capacity (s : Semaphore) (op : SemOp) :
    (s.step op).capacity = s.capacity := by
  cases op <;>
    simp only [Semaphore.step, Semaphore.Acquire, Semaphore.TryAcquire,
      Semaphore.Release] <;> split <;> rfl

theorem Semaphore.run_capacity (s : Semaphore) (ops : List SemOp) :
    (s.run ops).capacity = s.capacity := by
  induction ops generalizing s with
  | nil => rfl
  | cons op ops ih =>
    calc (s.run (op :: ops)).capacity
        = ((s.step op).run ops).capacity := rfl
      _ = (s.step op).capacity := ih (s.step op)
      _ = s.capacity := s.step_capacity op

theorem NewSemaphore_capacity_of_pos (c : Nat) (h : 1 ≤ c) :
    (NewSemaphore (c : Int)).capacity = c := by
  unfold NewSemaphore
  split
  · omega
  · simp

/-- C7: for every sequence of Acquire, TryAcquire and Release calls on a
semaphore of capacity c ≥ 1, the active count satisfies 0 ≤ active ≤ c after
every operation; in particular a Release without a matching prior acquire
(active = 0) is a no-op that does not drive the count negative, and an
acquire (blocking or try) can only succeed while active < c. -/
theorem semaphore_active_bounds (c : Nat) (ops : List SemOp) (h : 1 ≤ c) :
    0 ≤ ((NewSemaphore (c : Int)).run ops).active ∧
    ((NewSemaphore (c : Int)).run ops).active ≤ (c : Int) ∧
    (((NewSemaphore (c : Int)).run ops).active = 0 →
      ((NewSemaphore (c : Int)).run ops).Release =
        (NewSemaphore (c : Int)).run ops) ∧
    ((((NewSemaphore (c : Int)).run ops).Acquire).1 = true →
      ((NewSemaphore (c : Int)).run ops).active < (c : Int)) ∧
    ((((NewSemaphore (c : Int)).run ops).TryAcquire).1 = true →
      ((NewSemaphore (c : Int)).run ops).active < (c : Int)) := by
  have hcap := NewSemaphore_capacity_of_pos c h
  obtain ⟨h1, h2⟩ :=
    Semaphore.run_inv ops (NewSemaphore (c : Int)) (NewSemaphore_inv (c : Int))
  set s := (NewSemaphore (c : Int)).run ops with hs
  have hcap' : s.capacity = c := by
    rw [hs, Semaphore.run_capacity, hcap]
  refine ⟨by omega, by omega, ?_, ?_, ?_⟩
  · intro hzero
    unfold Semaphore.Release
    have : ¬ 0 < s.chanLen := by omega
    simp [this]
  · intro hacq
    unfold Semaphore.Acquire at hacq
    by_cases hlt : s.chanLen < s.capacity
    · omega
    · simp [hlt] at hacq
  · intro hacq
    unfold Semaphore.TryAcquire at hacq
    by_cases hlt : s.chanLen < s.capacity
    · omega
    · simp [hlt] at hacq

/-- Witness for `semaphore_active_bounds` at capacity 1 with a release before
any acquire, then a successful acquire and a try-acquire at capacity. -/
theorem semaphore_active_bounds_witness :
    1 ≤ 1 ∧
    (0 ≤ ((NewSemaphore (1 : Int)).run
        [SemOp.releaseOp, SemOp.acquireOp, SemOp.tryAcquireOp]).active ∧
      ((NewSemaphore (1 : Int)).run
        [SemOp.releaseOp, SemOp.acquireOp, SemOp.tryAcquireOp]).active ≤ (1 : Int) ∧
      (((NewSemaphore (1 : Int)).run
        [SemOp.releaseOp, SemOp.acquireOp, SemOp.tryAcquireOp]).active = 0 →
        ((NewSemaphore (1 : Int)).run
          [SemOp.releaseOp, SemOp.acquireOp, SemOp.tryAcquireOp]).Release =
          (NewSemaphore (1 : Int)).run
            [SemOp.releaseOp, SemOp.acquireOp, SemOp.tryAcquireOp]) ∧
      ((((NewSemaphore (1 : Int)).run
        [SemOp.releaseOp, SemOp.acquireOp, SemOp.tryAcquireOp]).Acquire).1 = true →
        ((NewSemaphore (1 : Int)).run
          [SemOp.releaseOp, SemOp.acquireOp, SemOp.tryAcquireOp]).active < (1 : Int)) ∧
      ((((NewSemaphore (1 : Int)).run
        [SemOp.releaseOp, SemOp.acquireOp, SemOp.tryAcquireOp]).TryAcquire).1 = true →
        ((NewSemaphore (1 : Int)).run
          [SemOp.releaseOp, SemOp.acquireOp, SemOp.tryAcquireOp]).active < (1 : Int))) :=
  ⟨by decide,
   semaphore_active_bounds 1 [SemOp.releaseOp, SemOp.acquireOp, SemOp.tryAcquireOp]
     (by decide)⟩

/-! ## Circuit breaker (`internal/job/interfaces.go`, sidecar section)

The breaker guards the executor client.  Time is passed explicitly as `Int`
epoch seconds: every Go `time.Now()` read becomes a `now` parameter, and
`time.Since(lastFailTime)` becomes `now - lastFailTime`. -/

/-- `CircuitState`: `StateClosed`, `StateOpen`, `StateHalfOpen`. -/
inductive CircuitState where
  | StateClosed
  | StateOpen
  | StateHalfOpen
deriving DecidableEq, Repr

/-- `type CircuitBreaker struct` with its mutex dropped (operations are
atomic in the sequential semantics). -/
structure CircuitBreaker where
  maxFailures : Nat
  resetTimeout : Int
  failures : Nat
  lastFailTime : Int
  state : CircuitState
deriving DecidableEq, Repr

/-- `NewCircuitBreaker`: starts closed with zero failures; the Go zero value
of `lastFailTime` is modelled as epoch 0. -/
def NewCircuitBreaker (maxFailures : Nat) (resetTimeout : Int) : CircuitBreaker :=
  { maxFailures := maxFailures
    resetTimeout := resetTimeout
    failures := 0
    lastFailTime := 0
    state := CircuitState.StateClosed }

/-- `CircuitBreaker.AllowRequest`: closed and half-open permit; open permits
(and flips to half-open) only when `time.Since(lastFailTime) >
resetTimeout`, a strict comparison in the source. -/
def CircuitBreaker.AllowRequest (cb : CircuitBreaker) (now : Int) :
    Bool × CircuitBreaker :=
  match cb.state with
  | CircuitState.StateClosed => (true, cb)
  | CircuitState.StateOpen =>
    if cb.resetTimeout < now - cb.lastFailTime then
      (true, { cb with state := CircuitState.StateHalfOpen })
    else (false, cb)
  | CircuitState.StateHalfOpen => (true, cb)

/-- `CircuitBreaker.RecordSuccess`: resets the failure count and closes. -/
def CircuitBreaker.RecordSuccess (cb : CircuitBreaker) : CircuitBreaker :=
  { cb with failures := 0, state := CircuitState.StateClosed }

/-- `CircuitBreaker.RecordFailure`: increments the count, stamps the failure
time, and opens once the count reaches `maxFailures`. -/
def CircuitBreaker.RecordFailure (cb : CircuitBreaker) (now : Int) : CircuitBreaker :=
  let failures := cb.failures + 1
  { cb with
    failures := failures
    lastFailTime := now
    state := if cb.maxFailures ≤ failures then CircuitState.StateOpen else cb.state }

/-- A run of consecutive `RecordFailure` calls at the given times. -/
def CircuitBreaker.recordFailures (cb : CircuitBreaker) (ts : List Int) : CircuitBreaker :=
  ts.foldl CircuitBreaker.RecordFailure cb

theorem CircuitBreaker.recordFailures_spec (cb : CircuitBreaker) (ts : List Int) :
    (cb.recordFailures ts).failures = cb.failures + ts.length ∧
    (cb.recordFailures ts).maxFailures = cb.maxFailures ∧
    (cb.recordFailures ts).state =
      (if ts ≠ [] ∧ cb.maxFailures ≤ cb.failures + ts.length
        then CircuitState.StateOpen else cb.state) := by
  induction ts generalizing cb with
  | nil => simp [CircuitBreaker.recordFailures]
  | cons t ts ih =>
    obtain ⟨ih1, ih2, ih3⟩ := ih (cb.RecordFailure t)
    have hmaxf : (cb.RecordFailure t).maxFailures = cb.maxFailures := rfl
    have hfail : (cb.RecordFailure t).failures = cb.failures + 1 := rfl
    refine ⟨?_, ?_, ?_⟩
    · show ((cb.RecordFailure t).recordFailures ts).failures = _
      rw [ih1, hfail]
      simp
      omega
    · show ((cb.RecordFailure t).recordFailures ts).maxFailures = _
      rw [ih2, hmaxf]
    · show ((cb.RecordFailure t).recordFailures ts).state = _
      rw [ih3, hmaxf, hfail]
      by_cases hts : ts = []
      · subst hts
        simp [CircuitBreaker.RecordFailure]
      · by_cases hcross : cb.maxFailures ≤ cb.failures + 1 + ts.length
        · have hc2 : cb.maxFailures ≤ cb.failures + (t :: ts).length := by
            simp
            omega
          simp [hts, hcross, hc2]
          rw [if_pos (by omega)]
        · have hc2 : ¬ cb.maxFailures ≤ cb.failures + (t :: ts).length := by
            simp
            omega
          have hc3 : ¬ cb.maxFailures ≤ cb.failures + 1 := by omega
          simp [hts, hcross, hc2, hc3, CircuitBreaker.RecordFailure]
          rw [if_neg (by omega)]

/-- C3 counterexample: with `max_failures = 1` and `reset_timeout = 30`, one
failure recorded at time 0 opens the breaker; an `AllowRequest` at time 30
has `now - last_fail = 30 ≥ reset_timeout`, yet the source's strict
comparison keeps the breaker open and blocks the request, contradicting the
claim that `now - last_fail ≥ reset_timeout` permits it and moves the
breaker to half-open. -/
theorem circuitBreaker_boundary_counterexample :
    (30 : Int) - ((NewCircuitBreaker 1 30).RecordFailure 0).lastFailTime ≥ 30 ∧
    ((NewCircuitBreaker 1 30).RecordFailure 0).state = CircuitState.StateOpen ∧
    (((NewCircuitBreaker 1 30).RecordFailure 0).AllowRequest 30).1 = false ∧
    (((NewCircuitBreaker 1 30).RecordFailure 0).AllowRequest 30).2.state =
      CircuitState.StateOpen := by
  decide

/-- C3 amended: starting closed, after `max_failures ≥ 1` consecutive
`record_failure` calls with no intervening `record_success` the state is
open; `allow_request` returns false (breaker stays open) for every call made
while `now - last_fail ≤ reset_timeout`; an `allow_request` made when
`now - last_fail > reset_timeout` (strictly) moves the breaker to half-open
and permits the request; `record_success` from any state resets the failure
count to 0 and closes the breaker. -/
theorem circuitBreaker_state_machine (mf : Nat) (rt : Int) (ts : List Int)
    (hmf : 1 ≤ mf) (hlen : ts.length = mf) :
    ((NewCircuitBreaker mf rt).recordFailures ts).state = CircuitState.StateOpen ∧
    ((NewCircuitBreaker mf rt).recordFailures ts).failures = mf ∧
    (∀ cb : CircuitBreaker, ∀ now : Int, cb.state = CircuitState.StateOpen →
      now - cb.lastFailTime ≤ cb.resetTimeout →
      cb.AllowRequest now = (false, cb)) ∧
    (∀ cb : CircuitBreaker, ∀ now : Int, cb.state = CircuitState.StateOpen →
      cb.resetTimeout < now - cb.lastFailTime →
      cb.AllowRequest now = (true, { cb with state := CircuitState.StateHalfOpen })) ∧
    (∀ cb : CircuitBreaker,
      cb.RecordSuccess.failures = 0 ∧
      cb.RecordSuccess.state = CircuitState.StateClosed) := by
  obtain ⟨h1, _, h3⟩ := CircuitBreaker.recordFailures_spec (NewCircuitBreaker mf rt) ts
  have hne : ts ≠ [] := by
    intro hnil
    subst hnil
    simp at hlen
    omega
  refine ⟨?_, ?_, ?_, ?_, ?_⟩
  · rw [h3]
    simp [NewCircuitBreaker, hne, hlen]
  · rw [h1]
    simp [NewCircuitBreaker, hlen]
  · intro cb now hstate hle
    unfold CircuitBreaker.AllowRequest
    rw [hstate]
    simp
    omega
  · intro cb now hstate hlt
    unfold CircuitBreaker.AllowRequest
    rw [hstate]
    simp [hlt]
  · intro cb
    exact ⟨rfl, rfl⟩

/-- Witness for `circuitBreaker_state_machine`: five failures at times
0..4 on the default breaker parameters (5 failures, 30 s reset). -/
theorem circuitBreaker_state_machine_witness :
    ((NewCircuitBreaker 5 30).recordFailures [0, 1, 2, 3, 4]).state =
      CircuitState.StateOpen ∧
    ((NewCircuitBreaker 5 30).recordFailures [0, 1, 2, 3, 4]).failures = 5 :=
  ⟨(circuitBreaker_state_machine 5 30 [0, 1, 2, 3, 4] (by decide) (by decide)).1,
   (circuitBreaker_state_machine 5 30 [0, 1, 2, 3, 4] (by decide) (by decide)).2.1⟩

/-! ## HTTP executor client (`internal/job/interfaces.go`, sidecar section)

`HTTPClient.executeWithRetry` runs attempts `0 .. maxRetries`; before every
attempt after the first it sleeps `attempt² × 100ms`.  A connection failure
or a body-read failure records the error and retries; a 5xx status likewise;
a 4xx status returns immediately; a 2xx status is decoded into the result
(a decode failure returns immediately).  The network is passed as an oracle
mapping the attempt number to that attempt's outcome. -/

/-- Outcome of a single HTTP attempt seen by the retry loop. -/
inductive HTTPOutcome where
  | connError
  | readBodyError
  | response (statusCode : Nat) (body : Option JobResult)
deriving DecidableEq, Repr

/-- Final outcome of the retry loop. -/
inductive ExecOut where
  | ok (r : JobResult)
  | clientError (statusCode : Nat)
  | decodeError
  | exhausted
deriving DecidableEq, Repr

/-- Trace of one `executeWithRetry` call: final outcome, number of HTTP
attempts issued, and the backoff sleeps (milliseconds) performed. -/
structure RetryTrace where
  out : ExecOut
  attemptsMade : Nat
  sleepsMs : List Nat
deriving DecidableEq, Repr

/-- An outcome that the source retries on: connection failure, body-read
failure, or a 5xx status. -/
def retryableOutcome : HTTPOutcome → Bool
  | HTTPOutcome.connError => true
  | HTTPOutcome.readBodyError => true
  | HTTPOutcome.response s _ => 500 ≤ s

/-- The body of `executeWithRetry` from the given attempt number, with fuel
counting the attempts still permitted. -/
def executeAttempts (outcomes : Nat → HTTPOutcome) (attempt : Nat) : Nat → RetryTrace
  | 0 => { out := ExecOut.exhausted, attemptsMade := 0, sleepsMs := [] }
  | fuel + 1 =>
    let sleeps := if attempt = 0 then [] else [attempt * attempt * 100]
    match outcomes attempt with
    | HTTPOutcome.connError =>
      let rest := executeAttempts outcomes (attempt + 1) fuel
      { out := rest.out, attemptsMade := rest.attemptsMade + 1,
        sleepsMs := sleeps ++ rest.sleepsMs }
    | HTTPOutcome.readBodyError =>
      let rest := executeAttempts outcomes (attempt + 1) fuel
      { out := rest.out, attemptsMade := rest.attemptsMade + 1,
        sleepsMs := sleeps ++ rest.sleepsMs }
    | HTTPOutcome.response s b =>
      if 500 ≤ s then
        let rest := executeAttempts outcomes (attempt + 1) fuel
        { out := rest.out, attemptsMade := rest.attemptsMade + 1,
          sleepsMs := sleeps ++ rest.sleepsMs }
      else if 400 ≤ s then
        { out := ExecOut.clientError s, attemptsMade := 1, sleepsMs := sleeps }
      else
        match b with
        | some r => { out := ExecOut.ok r, attemptsMade := 1, sleepsMs := sleeps }
        | none => { out := ExecOut.decodeError, attemptsMade := 1, sleepsMs := sleeps }

/-- `HTTPClient.executeWithRetry`: attempts `0 .. maxRetries`. -/
def executeWithRetry (outcomes : Nat → HTTPOutcome) (maxRetries : Nat) : RetryTrace :=
  executeAttempts outcomes 0 (maxRetries + 1)

/-- `HTTPClient.ExecuteJob`: checks the breaker, runs `executeWithRetry`
with `maxRetries = 3`, and returns the decoded result on success —
including a result whose `Status` is `failure`, which is not an error. -/
def HTTPClient.ExecuteJob (breakerAllows : Bool) (outcomes : Nat → HTTPOutcome) :
    Except String JobResult :=
  if breakerAllows = false then Except.error "circuit breaker is open"
  else
    match (executeWithRetry outcomes 3).out with
    | ExecOut.ok r => Except.ok r
    | ExecOut.clientError _ => Except.error "client error"
    | ExecOut.decodeError => Except.error "failed to decode response"
    | ExecOut.exhausted => Except.error "request failed after 4 attempts"

theorem executeAttempts_retryable (outcomes : Nat → HTTPOutcome) (attempt fuel : Nat)
    (h : retryableOutcome (outcomes attempt) = true) :
    executeAttempts outcomes attempt (fuel + 1) =
      { out := (executeAttempts outcomes (attempt + 1) fuel).out
        attemptsMade := (executeAttempts outcomes (attempt + 1) fuel).attemptsMade + 1
        sleepsMs := (if attempt = 0 then [] else [attempt * attempt * 100]) ++
          (executeAttempts outcomes (attempt + 1) fuel).sleepsMs } := by
  cases houtcome : outcomes attempt with
  | connError => simp [executeAttempts, houtcome]
  | readBodyError => simp [executeAttempts, houtcome]
  | response s b =>
    rw [houtcome] at h
    simp [retryableOutcome] at h
    simp [executeAttempts, houtcome, h]

theorem executeAttempts_clientError (outcomes : Nat → HTTPOutcome) (attempt fuel : Nat)
    (s : Nat) (b : Option JobResult)
    (houtcome : outcomes attempt = HTTPOutcome.response s b)
    (h4 : 400 ≤ s) (h5 : s < 500) :
    executeAttempts outcomes attempt (fuel + 1) =
      { out := ExecOut.clientError s, attemptsMade := 1,
        sleepsMs := if attempt = 0 then [] else [attempt * attempt * 100] } := by
  have h5' : ¬ 500 ≤ s := by omega
  simp [executeAttempts, houtcome, h5', h4]

theorem executeAttempts_ok (outcomes : Nat → HTTPOutcome) (attempt fuel : Nat)
    (s : Nat) (r : JobResult)
    (houtcome : outcomes attempt = HTTPOutcome.response s (some r))
    (h4 : s < 400) :
    executeAttempts outcomes attempt (fuel + 1) =
      { out := ExecOut.ok r, attemptsMade := 1,
        sleepsMs := if attempt = 0 then [] else [attempt * attempt * 100] } := by
  have h5' : ¬ 500 ≤ s := by omega
  have h4' : ¬ 400 ≤ s := by omega
  simp [executeAttempts, houtcome, h5', h4']

/-- C4: the transport retry loop with `maxRetries = 3` behaves as claimed:
when every one of the 4 attempts fails retryably (connection failure or 5xx)
it issues exactly 4 attempts, sleeps 100, 400, 900 ms before the retries,
and `ExecuteJob` returns an error; the first non-retried attempt being a
4xx returns an error immediately with no further attempts; the first
non-retried attempt being a decodable non-4xx response — including one whose
status field is `failure` — makes `ExecuteJob` return it as a normal result,
not an error. -/
theorem httpClient_transport_retry (outcomes : Nat → HTTPOutcome) :
    ((∀ i : Nat, i ≤ 3 → retryableOutcome (outcomes i) = true) →
      executeWithRetry outcomes 3 =
        { out := ExecOut.exhausted, attemptsMade := 4, sleepsMs := [100, 400, 900] } ∧
      HTTPClient.ExecuteJob true outcomes =
        Except.error "request failed after 4 attempts") ∧
    (∀ i s b, i ≤ 3 → (∀ j : Nat, j < i → retryableOutcome (outcomes j) = true) →
      outcomes i = HTTPOutcome.response s b → 400 ≤ s → s < 500 →
      (executeWithRetry outcomes 3).out = ExecOut.clientError s ∧
      (executeWithRetry outcomes 3).attemptsMade = i + 1 ∧
      HTTPClient.ExecuteJob true outcomes = Except.error "client error") ∧
    (∀ i s r, i ≤ 3 → (∀ j : Nat, j < i → retryableOutcome (outcomes j) = true) →
      outcomes i = HTTPOutcome.response s (some r) → s < 400 →
      (executeWithRetry outcomes 3).out = ExecOut.ok r ∧
      (executeWithRetry outcomes 3).attemptsMade = i + 1 ∧
      HTTPClient.ExecuteJob true outcomes = Except.ok r) := by
  refine ⟨?_, ?_, ?_⟩
  · intro hall
    have e0 := executeAttempts_retryable outcomes 0 3 (hall 0 (by omega))
    have e1 := executeAttempts_retryable outcomes 1 2 (hall 1 (by omega))
    have e2 := executeAttempts_retryable outcomes 2 1 (hall 2 (by omega))
    have e3 := executeAttempts_retryable outcomes 3 0 (hall 3 (by omega))
    have hbase : executeAttempts outcomes 4 0 =
        { out := ExecOut.exhausted, attemptsMade := 0, sleepsMs := [] } := rfl
    have htrace : executeWithRetry outcomes 3 =
        { out := ExecOut.exhausted, attemptsMade := 4, sleepsMs := [100, 400, 900] } := by
      unfold executeWithRetry
      rw [e0, e1, e2, e3, hbase]
      simp
    refine ⟨htrace, ?_⟩
    unfold HTTPClient.ExecuteJob
    rw [htrace]
    simp
  · intro i s b hi hprev houtcome h4 h5
    have htrace : executeWithRetry outcomes 3 =
        { out := ExecOut.clientError s, attemptsMade := i + 1,
          sleepsMs := (List.range (i + 1)).filterMap
            (fun a => if a = 0 then none else some (a * a * 100)) } := by
      unfold executeWithRetry
      interval_cases i
      · rw [executeAttempts_clientError outcomes 0 3 s b houtcome h4 h5]
        simp
      · rw [executeAttempts_retryable outcomes 0 3 (hprev 0 (by omega)),
          executeAttempts_clientError outcomes 1 2 s b houtcome h4 h5]
        simp [List.range_succ]
      · rw [executeAttempts_retryable outcomes 0 3 (hprev 0 (by omega)),
          executeAttempts_retryable outcomes 1 2 (hprev 1 (by omega)),
          executeAttempts_clientError outcomes 2 1 s b houtcome h4 h5]
        simp [List.range_succ]
      · rw [executeAttempts_retryable outcomes 0 3 (hprev 0 (by omega)),
          executeAttempts_retryable outcomes 1 2 (hprev 1 (by omega)),
          executeAttempts_retryable outcomes 2 1 (hprev 2 (by omega)),
          executeAttempts_clientError outcomes 3 0 s b houtcome h4 h5]
        simp [List.range_succ]
    refine ⟨by rw [htrace], by rw [htrace], ?_⟩
    unfold HTTPClient.ExecuteJob
    rw [htrace]
    simp
  · intro i s r hi hprev houtcome h4
    have htrace : executeWithRetry outcomes 3 =
        { out := ExecOut.ok r, attemptsMade := i + 1,
          sleepsMs := (List.range (i + 1)).filterMap
            (fun a => if a = 0 then none else some (a * a * 100)) } := by
      unfold executeWithRetry
      interval_cases i
      · rw [executeAttempts_ok outcomes 0 3 s r houtcome h4]
        simp
      · rw [executeAttempts_retryable outcomes 0 3 (hprev 0 (by omega)),
          executeAttempts_ok outcomes 1 2 s r houtcome h4]
        simp [List.range_succ]
      · rw [executeAttempts_retryable outcomes 0 3 (hprev 0 (by omega)),
          executeAttempts_retryable outcomes 1 2 (hprev 1 (by omega)),
          executeAttempts_ok outcomes 2 1 s r houtcome h4]
        simp [List.range_succ]
      · rw [executeAttempts_retryable outcomes 0 3 (hprev 0 (by omega)),
          executeAttempts_retryable outcomes 1 2 (hprev 1 (by omega)),
          executeAttempts_retryable outcomes 2 1 (hprev 2 (by omega)),
          executeAttempts_ok outcomes 3 0 s r houtcome h4]
        simp [List.range_succ]
    refine ⟨by rw [htrace], by rw [htrace], ?_⟩
    unfold HTTPClient.ExecuteJob
    rw [htrace]
    simp

/-- A sample executor result reporting `failure`, as returned by the sidecar
for a job whose `perform` raised. -/
def failureResult : JobResult :=
  { Status := "failure", Result := "", ExecutionTime := 0,
    ErrorMessage := "boom" }

/-- Witness for `httpClient_transport_retry`: an executor that always
returns HTTP 500 exhausts 4 attempts with sleeps 100, 400, 900 ms; one that
returns 200 with a `failure`-status body on the second attempt after one 503
yields that result as a normal (non-error) outcome after 2 attempts. -/
theorem httpClient_transport_retry_witness :
    executeWithRetry (fun _ => HTTPOutcome.response 500 none) 3 =
      { out := ExecOut.exhausted, attemptsMade := 4, sleepsMs := [100, 400, 900] } ∧
    HTTPClient.ExecuteJob true
        (fun i => if i = 0 then HTTPOutcome.response 503 none
          else HTTPOutcome.response 200 (some failureResult)) =
      Except.ok failureResult := by
  constructor
  · exact ((httpClient_transport_retry (fun _ => HTTPOutcome.response 500 none)).1
      (by intro i _; decide)).1
  · exact ((httpClient_transport_retry
        (fun i => if i = 0 then HTTPOutcome.response 503 none
          else HTTPOutcome.response 200 (some failureResult))).2.2
      1 200 failureResult (by omega)
      (by intro j hj; interval_cases j; decide)
      (by simp) (by omega)).2.2

/-! ## Store adapter (`internal/redis/client.go`)

A Redis list is a `List` whose head is the LEFT end: `LPUSH` conses onto the
head; `BLPOP` removes the head.  Encoded job payloads are modelled by the
records themselves (the spec's round-trip invariant makes encoding a
bijection on the records the claims reason about). -/

/-- `LPUSH`: the producer (`enqueue_batch` in the benchmark scripts) pushes
on the left end of the list. -/
def lpush (v : SidekiqJob) (l : List SidekiqJob) : List SidekiqJob := v :: l

/-- `BLPOP` over several keys: the first non-empty list (in key order)
yields its LEFTMOST element.  Returns the serving key, the popped value and
the updated store; `none` models the 1-second timeout expiring. -/
def blpop : List (String × List SidekiqJob) →
    Option ((String × SidekiqJob) × List (String × List SidekiqJob))
  | [] => none
  | (name, []) :: rest =>
    match blpop rest with
    | none => none
    | some (hit, rest') => some (hit, (name, []) :: rest')
  | (name, v :: vs) :: rest => some ((name, v), (name, vs) :: rest)

/-- `Client.PollJobs` on the queue store: BLPOP across `queue:<q>` keys,
decoding the popped payload (decoding is the identity in this model). -/
def Client.PollJobs (store : List (String × List SidekiqJob)) :
    Option ((String × SidekiqJob) × List (String × List SidekiqJob)) :=
  blpop store

/-- The producer pushing a batch of records, first to last, onto a queue. -/
def pushAll (js : List SidekiqJob) (l : List SidekiqJob) : List SidekiqJob :=
  js.foldl (fun acc j => lpush j acc) l

/-- Draining a single queue by repeated BLPOP, in the order the store
returns the jobs; the fuel bounds the number of polls. -/
def drainAll (name : String) : Nat → List SidekiqJob → List SidekiqJob
  | 0, _ => []
  | fuel + 1, l =>
    match blpop [(name, l)] with
    | none => []
    | some ((_, v), qs) => v :: drainAll name fuel ((qs.headD (name, [])).2)

/-- A second sample job, distinct from `sampleJob`. -/
def sampleJob2 : SidekiqJob := { sampleJob with JID := "job-2" }

/-- C2 counterexample: push `sampleJob` then `sampleJob2` onto an empty
`queue:default` with the producer's left-push; `PollJobs` (BLPOP, a
LEFT-end pop) returns `sampleJob2`, the job pushed LAST — so the claim that
poll removes jobs from the right end and returns `sampleJob` first is false. -/
theorem pollJobs_lifo_counterexample :
    (Client.PollJobs [("queue:default", lpush sampleJob2 (lpush sampleJob []))]).map
        (fun hit => hit.1.2) = some sampleJob2 ∧
    sampleJob2 ≠ sampleJob := by
  decide

theorem pushAll_eq_reverse_append (js : List SidekiqJob) (l : List SidekiqJob) :
    pushAll js l = js.reverse ++ l := by
  induction js generalizing l with
  | nil => simp [pushAll]
  | cons j js ih =>
    show pushAll js (lpush j l) = _
    rw [ih (lpush j l)]
    simp [lpush]

theorem drainAll_id (name : String) (l : List SidekiqJob) :
    drainAll name l.length l = l := by
  induction l with
  | nil => rfl
  | cons v vs ih =>
    show drainAll name (vs.length + 1) (v :: vs) = v :: vs
    simp only [drainAll, blpop]
    rw [List.headD_cons]
    rw [ih]

/-- C2 amended: `PollJobs` removes jobs from the LEFT end of the list
`queue:<name>` (BLPOP), so with a producer that left-pushes, jobs leave each
queue in LIFO (reverse-insertion) order: polling a queue that holds an
earlier-pushed `a` and a later-pushed `b` returns `b` first, and draining a
queue built by pushing `js` in order yields exactly `js.reverse`. -/
theorem pollJobs_left_pop_lifo (name : String) (js : List SidekiqJob)
    (a b : SidekiqJob) (rest : List SidekiqJob) :
    Client.PollJobs [(name, lpush b (lpush a rest))] =
      some ((name, b), [(name, lpush a rest)]) ∧
    drainAll name (pushAll js []).length (pushAll js []) = js.reverse := by
  constructor
  · rfl
  · rw [drainAll_id, pushAll_eq_reverse_append]
    simp

/-! ## Store writes and `Client.EnqueueRetry` -/

/-- An externally visible write against the shared store. -/
inductive StoreWrite where
  | zaddSchedule (score : Int) (member : SidekiqJob)
  | zaddDead (score : Int) (member : SidekiqJob)
  | lpushQueue (key : String) (member : SidekiqJob)
deriving DecidableEq, Repr

/-- `Client.EnqueueRetry`: stamps `FailedAt` with the first `time.Now()`
read (`now1`), increments `Retry`, encodes, computes `retryAt` from the
second `time.Now()` read (`now2`); a positive delay inserts into the sorted
set `schedule` with score `now2 + delay`, otherwise the record is
left-pushed back onto `queue:<job.Queue>`.  Delays are in whole seconds
(the job-level backoff is second-granular). -/
def Client.EnqueueRetry (jobToRetry : SidekiqJob) (delay : Int)
    (now1 now2 : Int) : SidekiqJob × StoreWrite :=
  let updated := { jobToRetry with FailedAt := now1, Retry := jobToRetry.Retry + 1 }
  let retryAt := now2 + delay
  if 0 < delay then
    (updated, StoreWrite.zaddSchedule retryAt updated)
  else
    (updated, StoreWrite.lpushQueue ("queue:" ++ jobToRetry.Queue) updated)

/-- C5: `EnqueueRetry` increments `retry` by exactly one and sets
`failed_at` to the current time before encoding; with `delay > 0` the
encoded record goes into the sorted set `schedule` with score `now + delay`,
which is within ±1 second of the encoded record's `failed_at + delay`; with
`delay = 0` it is left-pushed onto `queue:<job.queue>` instead.  The two
`time.Now()` reads inside the call are `now1 ≤ now2 ≤ now1 + 1`. -/
theorem enqueueRetry_spec (j : SidekiqJob) (delay now1 now2 : Int)
    (h1 : now1 ≤ now2) (h2 : now2 ≤ now1 + 1) :
    (Client.EnqueueRetry j delay now1 now2).1.Retry = j.Retry + 1 ∧
    (Client.EnqueueRetry j delay now1 now2).1.FailedAt = now1 ∧
    (Client.EnqueueRetry j delay now1 now2).1.Queue = j.Queue ∧
    (0 < delay →
      (Client.EnqueueRetry j delay now1 now2).2 =
        StoreWrite.zaddSchedule (now2 + delay) (Client.EnqueueRetry j delay now1 now2).1 ∧
      |now2 + delay -
        ((Client.EnqueueRetry j delay now1 now2).1.FailedAt + delay)| ≤ 1) ∧
    (delay = 0 →
      (Client.EnqueueRetry j delay now1 now2).2 =
        StoreWrite.lpushQueue ("queue:" ++ j.Queue)
          (Client.EnqueueRetry j delay now1 now2).1) := by
  unfold Client.EnqueueRetry
  by_cases hd : 0 < delay
  · simp [hd]
    constructor
    · rw [abs_le]
      omega
    · intro hz
      omega
  · simp [hd]

/-- Witness for `enqueueRetry_spec`: the sample job retried with a 15 s
delay, both clock reads at epoch 100. -/
theorem enqueueRetry_spec_witness :
    (Client.EnqueueRetry sampleJob 15 100 100).1.Retry = sampleJob.Retry + 1 ∧
    (Client.EnqueueRetry sampleJob 15 100 100).2 =
      StoreWrite.zaddSchedule 115 (Client.EnqueueRetry sampleJob 15 100 100).1 := by
  have h := enqueueRetry_spec sampleJob 15 100 100 (by omega) (by omega)
  exact ⟨h.1, (h.2.2.2.1 (by omega)).1⟩

/-! ## Dead set and `Client.MoveToDLQ`

A sorted set is a list of `(score, member)` pairs in ascending rank order
(Redis ranks ascending by score; ties are ordered by member encoding, here
modelled by insertion position among equal scores, which no claim depends
on). -/

/-- An entry of the `dead` sorted set. -/
def DeadEntry : Type := Int × SidekiqJob

instance : DecidableEq DeadEntry := instDecidableEqProd

/-- `ZADD`: insert an entry at its rank position (after existing entries of
score ≤ the new score). -/
def zaddInsert : List DeadEntry → Int → SidekiqJob → List DeadEntry
  | [], score, j => [(score, j)]
  | e :: rest, score, j =>
    if score < e.1 then (score, j) :: e :: rest
    else e :: zaddInsert rest score j

/-- `ZREMRANGEBYRANK key 0 stop` with Redis index semantics: a negative
index counts from the end; when the resolved range is empty or entirely
below rank 0 nothing is removed. -/
def zremrangebyrankFromZero (s : List DeadEntry) (stop : Int) : List DeadEntry :=
  if min (if stop < 0 then (s.length : Int) + stop else stop) ((s.length : Int) - 1) < 0
  then s
  else s.drop ((min (if stop < 0 then (s.length : Int) + stop else stop)
    ((s.length : Int) - 1)).toNat + 1)

/-- `Client.MoveToDLQ`: stamps `failed_at = now`, inserts the encoded record
into `dead` with score `now`, then trims with
`ZREMRANGEBYRANK dead 0 -10001` so only the newest 10000 entries remain. -/
def Client.MoveToDLQ (deadSet : List DeadEntry) (jobToMove : SidekiqJob)
    (now : Int) : SidekiqJob × List DeadEntry :=
  let updated := { jobToMove with FailedAt := now }
  let inserted := zaddInsert deadSet now updated
  (updated, zremrangebyrankFromZero inserted (-10001))

/-- Ascending rank order of a sorted-set representation. -/
def SortedByScore (s : List DeadEntry) : Prop :=
  List.Pairwise (fun a b : DeadEntry => a.1 ≤ b.1) s

theorem mem_zaddInsert (x : DeadEntry) (s : List DeadEntry) (score : Int)
    (j : SidekiqJob) :
    x ∈ zaddInsert s score j ↔ x = (score, j) ∨ x ∈ s := by
  induction s with
  | nil => simp [zaddInsert]
  | cons e rest ih =>
    by_cases hlt : score < e.1 <;>
      (simp [zaddInsert, hlt, ih]; try tauto)

theorem zaddInsert_length (s : List DeadEntry) (score : Int) (j : SidekiqJob) :
    (zaddInsert s score j).length = s.length + 1 := by
  induction s with
  | nil => rfl
  | cons e rest ih =>
    by_cases hlt : score < e.1 <;> simp [zaddInsert, hlt, ih]

theorem zaddInsert_sorted (s : List DeadEntry) (score : Int) (j : SidekiqJob)
    (h : SortedByScore s) : SortedByScore (zaddInsert s score j) := by
  induction s with
  | nil =>
    simp [zaddInsert, SortedByScore]
  | cons e rest ih =>
    rw [SortedByScore, List.pairwise_cons] at h
    obtain ⟨he, hrest⟩ := h
    by_cases hlt : score < e.1
    · rw [SortedByScore]
      simp only [zaddInsert, hlt, if_pos]
      rw [List.pairwise_cons]
      refine ⟨?_, ?_⟩
      · intro x hx
        rcases List.mem_cons.mp hx with hx | hx
        · subst hx
          omega
        · have := he x hx
          omega
      · rw [List.pairwise_cons]
        exact ⟨he, hrest⟩
    · rw [SortedByScore]
      simp only [zaddInsert, hlt, if_neg, not_false_iff]
      rw [List.pairwise_cons]
      refine ⟨?_, ih hrest⟩
      intro x hx
      rcases (mem_zaddInsert x rest score j).mp hx with hx | hx
      · subst hx
        omega
      · exact he x hx

theorem zremrangebyrank_cap (s : List DeadEntry) :
    zremrangebyrankFromZero s (-10001) = s.drop (s.length - 10000) := by
  unfold zremrangebyrankFromZero
  have hstop : (if (-10001 : Int) < 0 then (s.length : Int) + (-10001) else -10001) =
      (s.length : Int) - 10001 := by
    rw [if_pos (by omega : (-10001 : Int) < 0)]
    omega
  rw [hstop]
  by_cases hlen : s.length ≤ 10000
  · rw [if_pos (by omega)]
    have : s.length - 10000 = 0 := by omega
    rw [this, List.drop_zero]
  · have hmin : min ((s.length : Int) - 10001) ((s.length : Int) - 1) =
        (s.length : Int) - 10001 := by omega
    rw [hmin, if_neg (by omega)]
    have harg : ((s.length : Int) - 10001).toNat + 1 = s.length - 10000 := by
      omega
    rw [harg]

/-- C6: `MoveToDLQ` sets the record's `failed_at` to the current time,
inserts it into the sorted set `dead` with score equal to that time, and
trims `dead` by rank so that only the 10 000 highest-ranked (most recent,
highest-score) entries survive: the result is exactly the length-10000
suffix of the post-insert set, its length is at most 10 000, and every
removed entry has a score no greater than every retained entry's score. -/
theorem moveToDLQ_spec (deadSet : List DeadEntry) (j : SidekiqJob) (now : Int)
    (hs : SortedByScore deadSet) :
    (Client.MoveToDLQ deadSet j now).1.FailedAt = now ∧
    (now, (Client.MoveToDLQ deadSet j now).1) ∈
      zaddInsert deadSet now (Client.MoveToDLQ deadSet j now).1 ∧
    (Client.MoveToDLQ deadSet j now).2 =
      (zaddInsert deadSet now (Client.MoveToDLQ deadSet j now).1).drop
        (deadSet.length + 1 - 10000) ∧
    (Client.MoveToDLQ deadSet j now).2.length ≤ 10000 ∧
    (∀ e ∈ (zaddInsert deadSet now (Client.MoveToDLQ deadSet j now).1).take
        (deadSet.length + 1 - 10000),
      ∀ k ∈ (Client.MoveToDLQ deadSet j now).2, e.1 ≤ k.1) := by
  have hupd : (Client.MoveToDLQ deadSet j now).1 = { j with FailedAt := now } := rfl
  set updated : SidekiqJob := { j with FailedAt := now } with hupdated
  set inserted : List DeadEntry := zaddInsert deadSet now updated with hinserted
  have hlen : inserted.length = deadSet.length + 1 := zaddInsert_length deadSet now updated
  have hsnd : (Client.MoveToDLQ deadSet j now).2 =
      inserted.drop (deadSet.length + 1 - 10000) := by
    show zremrangebyrankFromZero inserted (-10001) = _
    rw [zremrangebyrank_cap, hlen]
  refine ⟨rfl, ?_, ?_, ?_, ?_⟩
  · rw [hupd, ← hinserted]
    exact (mem_zaddInsert (now, updated) deadSet now updated).mpr (Or.inl rfl)
  · rw [hupd, ← hinserted]
    exact hsnd
  · rw [hsnd]
    simp
    omega
  · rw [hupd, ← hinserted, hsnd]
    intro e he k hk
    have hsorted : SortedByScore inserted := zaddInsert_sorted deadSet now updated hs
    have hsplit : inserted =
        inserted.take (deadSet.length + 1 - 10000) ++
          inserted.drop (deadSet.length + 1 - 10000) :=
      (List.take_append_drop _ _).symm
    rw [SortedByScore, hsplit, List.pairwise_append] at hsorted
    exact hsorted.2.2 e he k hk

/-- Witness for `moveToDLQ_spec`: moving the sample job into an empty dead
set at epoch 7. -/
theorem moveToDLQ_spec_witness :
    (Client.MoveToDLQ [] sampleJob 7).1.FailedAt = 7 ∧
    (Client.MoveToDLQ [] sampleJob 7).2.length ≤ 10000 := by
  have h := moveToDLQ_spec [] sampleJob 7 (by simp [SortedByScore])
  exact ⟨h.1, h.2.2.2.1⟩

/-! ## Concurrent processor (`internal/concurrency/processor.go`)

`executeJob` is the body of the goroutine spawned per job.  The executor's
call is an oracle: it either returns a transport error or completes with a
`JobResult`.  The body logs the start, invokes the executor, and logs the
outcome — its externally visible actions are logs and (in the effect
vocabulary) store writes; the source contains no call to `EnqueueRetry` or
`MoveToDLQ`. -/

/-- What `executor.ExecuteJob` returned to the task. -/
inductive ExecutorOutcome where
  | transportError (msg : String)
  | completed (r : JobResult)
deriving DecidableEq, Repr

/-- An externally visible action of the per-job task. -/
inductive TaskEffect where
  | logStart
  | logCompleted
  | logFailed
  | storeAction (w : StoreWrite)
deriving DecidableEq, Repr

/-- `ConcurrentProcessor.executeJob`: logs the start, runs the executor,
and logs success or failure; then returns. -/
def ConcurrentProcessor.executeJob (outcome : ExecutorOutcome) : List TaskEffect :=
  match outcome with
  | ExecutorOutcome.transportError _ => [TaskEffect.logStart, TaskEffect.logFailed]
  | ExecutorOutcome.completed r =>
    if r.Status = "success" then [TaskEffect.logStart, TaskEffect.logCompleted]
    else [TaskEffect.logStart, TaskEffect.logFailed]

/-- The store writes among a task's effects. -/
def taskStoreWrites (effects : List TaskEffect) : List StoreWrite :=
  effects.filterMap (fun e =>
    match e with
    | TaskEffect.storeAction w => some w
    | _ => none)

/-- C1 evaluated at the failing inputs: when the executor reports
`status = failure` (shown at the concrete result `failureResult`) or fails
at the transport layer, `executeJob` performs only logging — it issues no
store write at all, so it neither schedules a retry nor moves the job to the
dead set, contradicting the claim (and requirement 2 of the repository's own
requirements document) that the retry policy runs on every terminal
failure. -/
theorem executeJob_discards_failures :
    ConcurrentProcessor.executeJob (ExecutorOutcome.completed failureResult) =
      [TaskEffect.logStart, TaskEffect.logFailed] ∧
    taskStoreWrites
      (ConcurrentProcessor.executeJob (ExecutorOutcome.completed failureResult)) = [] ∧
    ConcurrentProcessor.executeJob (ExecutorOutcome.transportError "connection refused") =
      [TaskEffect.logStart, TaskEffect.logFailed] ∧
    taskStoreWrites
      (ConcurrentProcessor.executeJob
        (ExecutorOutcome.transportError "connection refused")) = [] := by
  decide

/-! ## Supervisor loop (`cmd/worker/main.go`) and `ProcessJob` admission -/

/-- `ConcurrentProcessor.ProcessJob` admission outcome: an error when the
processor is shutting down or the semaphore acquire was cancelled. -/
inductive SubmitOutcome where
  | accepted
  | submitError
deriving DecidableEq, Repr

/-- `ConcurrentProcessor.ProcessJob`: rejects when not running, then
acquires the semaphore under the admission context; a cancelled acquire is
the only other error. -/
def ConcurrentProcessor.ProcessJob (running : Bool) (acquireSucceeds : Bool) :
    SubmitOutcome :=
  if running = false then SubmitOutcome.submitError
  else if acquireSucceeds = false then SubmitOutcome.submitError
  else SubmitOutcome.accepted

/-- What one poll of the store produced for the supervisor loop. -/
inductive PollOutcome where
  | pollError
  | noJob
  | gotJob (j : SidekiqJob)
deriving DecidableEq, Repr

/-- An externally visible action of one supervisor-loop iteration. -/
inductive LoopEffect where
  | logged
  | slept (ms : Nat)
  | submitted (j : SidekiqJob)
  | storeAction (w : StoreWrite)
deriving DecidableEq, Repr

/-- One iteration of the worker loop in `main`: a poll error logs and backs
off 1 s; no job sleeps `poll_interval`; a popped job is submitted, and if
submission fails the loop only logs the error ("For now, just log it" in the
source) — it performs no store write. -/
def workerLoopBody (pollIntervalMs : Nat) :
    PollOutcome → SubmitOutcome → List LoopEffect
  | PollOutcome.pollError, _ => [LoopEffect.logged, LoopEffect.slept 1000]
  | PollOutcome.noJob, _ => [LoopEffect.slept pollIntervalMs]
  | PollOutcome.gotJob j, SubmitOutcome.accepted => [LoopEffect.submitted j]
  | PollOutcome.gotJob j, SubmitOutcome.submitError =>
    [LoopEffect.submitted j, LoopEffect.logged]

/-- The store writes among a loop iteration's effects. -/
def loopStoreWrites (effects : List LoopEffect) : List StoreWrite :=
  effects.filterMap (fun e =>
    match e with
    | LoopEffect.storeAction w => some w
    | _ => none)

/-- C9: when the supervisor has popped a job and `ProcessJob` returns an
error — which happens exactly when the processor is shutting down or the
admission acquire was cancelled — the loop iteration only logs: it performs
no store write, so the popped job is neither re-pushed to its queue nor
placed in the schedule or dead sets, and is lost. -/
theorem workerLoop_drops_job_on_submit_error (pollIntervalMs : Nat)
    (j : SidekiqJob) (running acquireSucceeds : Bool)
    (h : running = false ∨ acquireSucceeds = false) :
    ConcurrentProcessor.ProcessJob running acquireSucceeds =
      SubmitOutcome.submitError ∧
    workerLoopBody pollIntervalMs (PollOutcome.gotJob j)
      SubmitOutcome.submitError =
      [LoopEffect.submitted j, LoopEffect.logged] ∧
    loopStoreWrites
      (workerLoopBody pollIntervalMs (PollOutcome.gotJob j)
        SubmitOutcome.submitError) = [] := by
  refine ⟨?_, rfl, rfl⟩
  rcases h with h | h <;>
    subst h <;>
    simp [ConcurrentProcessor.ProcessJob]

/-- Witness for `workerLoop_drops_job_on_submit_error`: the sample job
popped while the processor is shutting down. -/
theorem workerLoop_drops_job_on_submit_error_witness :
    ConcurrentProcessor.ProcessJob false true = SubmitOutcome.submitError ∧
    loopStoreWrites
      (workerLoopBody 100 (PollOutcome.gotJob sampleJob)
        SubmitOutcome.submitError) = [] := by
  have h := workerLoop_drops_job_on_submit_error 100 sampleJob false true
    (Or.inl rfl)
  exact ⟨h.1, h.2.2⟩

/-! ## `ConcurrentProcessor.Shutdown` -/

/-- The processor's shared state relevant to shutdown: the `running` flag
and whether the admission context has been cancelled. -/
structure ProcessorState where
  running : Bool
  cancelled : Bool
deriving DecidableEq, Repr

/-- Observable trace of one `Shutdown` call: the returned error (if any),
the state afterwards, and whether the call waited for the drain. -/
structure ShutdownTrace where
  returnedError : Option String
  finalState : ProcessorState
  waitedForDrain : Bool
deriving DecidableEq, Repr

/-- `ConcurrentProcessor.Shutdown`: when not running it returns nil at once
(no cancel, no wait); otherwise it flips `running` off, cancels the
admission context, and waits for the drain, returning nil on completion or a
timeout error when the deadline elapses first. -/
def ConcurrentProcessor.Shutdown (st : ProcessorState)
    (drainCompletesInTime : Bool) : ShutdownTrace :=
  if st.running = false then
    { returnedError := none, finalState := st, waitedForDrain := false }
  else
    let st' : ProcessorState := { running := false, cancelled := true }
    if drainCompletesInTime then
      { returnedError := none, finalState := st', waitedForDrain := true }
    else
      { returnedError := some "shutdown timeout exceeded", finalState := st',
        waitedForDrain := true }

/-- C10: `Shutdown` on an already-not-running processor returns nil
immediately, without waiting for the drain or deadline and without touching
the cancellation flag; only the first `Shutdown` (from a running state)
cancels the admission context and waits for the drain, and any later
`Shutdown` call then short-circuits. -/
theorem shutdown_idempotent (st : ProcessorState) (d d2 : Bool)
    (h : st.running = false) :
    ConcurrentProcessor.Shutdown st d =
      { returnedError := none, finalState := st, waitedForDrain := false } ∧
    (∀ st1 : ProcessorState, st1.running = true →
      (ConcurrentProcessor.Shutdown st1 d).finalState =
        { running := false, cancelled := true } ∧
      (ConcurrentProcessor.Shutdown st1 d).waitedForDrain = true ∧
      ConcurrentProcessor.Shutdown
          (ConcurrentProcessor.Shutdown st1 d).finalState d2 =
        { returnedError := none
          finalState := (ConcurrentProcessor.Shutdown st1 d).finalState
          waitedForDrain := false }) := by
  constructor
  · simp [ConcurrentProcessor.Shutdown, h]
  · intro st1 h1
    simp only [ConcurrentProcessor.Shutdown, h1]
    by_cases hd : d = true <;>
      simp [hd]

/-- Witness for `shutdown_idempotent`: a second shutdown after a timed-out
first shutdown returns nil without waiting. -/
theorem shutdown_idempotent_witness :
    ConcurrentProcessor.Shutdown { running := false, cancelled := true } false =
      { returnedError := none
        finalState := { running := false, cancelled := true }
        waitedForDrain := false } :=
  (shutdown_idempotent { running := false, cancelled := true } false false rfl).1

/-! ## gRPC executor client (`internal/sidecar/grpc_client.go`)

`GRPCClient.ExecuteJob` converts each heterogeneous argument with
`fmt.Sprintf("%v", arg)`.  Over the decoded JSON values this yields: a
string unchanged, a boolean as `true`/`false`, a JSON null (a nil
`interface{}`) as the string `<nil>`, and a `float64` as
`strconv.FormatFloat(v, 'g', -1, 64)`: the shortest round-trippable digits,
printed as plain decimal while the decimal exponent is below 6 and in
e-notation (one leading digit, trailing zeros stripped, exponent padded to
two digits) once the magnitude reaches 10^6 — so `float64(1000000)` renders
as `1e+06`, not `1000000`. -/

/-- Drop the trailing zero digits of a most-significant-first digit list. -/
def stripTrailingZeroDigits (digits : List Char) : List Char :=
  (digits.reverse.dropWhile (fun c => c = '0')).reverse

/-- `fmt.Sprintf("%v", v)` on an integer-valued `float64` of magnitude at
most 2^53 (the `num` domain): plain decimal digits below 10^6, otherwise
`%g` e-notation with the trailing zeros folded into a two-digit-padded
exponent. -/
def goFormatIntegralFloat (n : Int) : String :=
  if n.natAbs < 1000000 then toString n
  else
    let sign := if n < 0 then "-" else ""
    let digits := Nat.toDigits 10 n.natAbs
    let exp := digits.length - 1
    let trimmed := stripTrailingZeroDigits digits
    let mantissa :=
      match trimmed with
      | [] => "0"
      | [d] => String.mk [d]
      | d :: rest => String.mk [d] ++ "." ++ String.mk rest
    sign ++ mantissa ++ "e+" ++
      (if exp < 10 then "0" ++ toString exp else toString exp)

/-- Go's `fmt.Sprintf("%v", v)` on a decoded JSON argument. -/
def goFormatV : GoValue → String
  | GoValue.str s => s
  | GoValue.num n => goFormatIntegralFloat n
  | GoValue.boolean b => if b then "true" else "false"
  | GoValue.null => "<nil>"

/-- The request the gRPC transport sends for a job. -/
structure JobRequest where
  Class : String
  Jid : String
  Queue : String
  Args : List String
  CreatedAt : Int
  EnqueuedAt : Int
deriving DecidableEq, Repr

/-- The argument conversion and request assembly inside
`GRPCClient.ExecuteJob`. -/
def GRPCClient.buildRequest (jobData : SidekiqJob) : JobRequest :=
  { Class := jobData.Class
    Jid := jobData.JID
    Queue := jobData.Queue
    Args := jobData.Args.map goFormatV
    CreatedAt := jobData.CreatedAt
    EnqueuedAt := jobData.EnqueuedAt }

/-- Modelled from the spec: the canonical value-to-string projection the
claim describes, under which a null value becomes the EMPTY string (its
numeric case reads the spec's "shortest round-trippable decimal" as the
plain decimal digits). -/
def specCanonicalProjection : GoValue → String
  | GoValue.str s => s
  | GoValue.num n => toString n
  | GoValue.boolean b => if b then "true" else "false"
  | GoValue.null => ""

/-- C8 counterexample: a job carrying a single null argument is sent with
`args = ["<nil>"]`, not `[""]` — `fmt.Sprintf("%v", nil)` renders `<nil>`,
so the claimed projection of null to the empty string is false. -/
theorem grpc_null_arg_counterexample :
    (GRPCClient.buildRequest { sampleJob with Args := [GoValue.null] }).Args =
      ["<nil>"] ∧
    (GRPCClient.buildRequest { sampleJob with Args := [GoValue.null] }).Args ≠
      [specCanonicalProjection GoValue.null] ∧
    specCanonicalProjection GoValue.null = "" := by
  decide

/-- C8 amended: every argument is converted with Go's default `%v`
formatting: a string passes through unchanged, a boolean becomes `true` or
`false`, a null value becomes the string `<nil>` — not the empty string —
and an integral numeric value becomes its shortest round-trippable `%g`
rendering: its plain decimal digits while its magnitude is below 10^6, and
e-notation (one leading digit, trailing zeros stripped, two-digit-padded
exponent) at or above 10^6, as the concrete renderings of 999999, 10^6,
1234567, -2500000 and 10^11 show. -/
theorem grpc_arg_projection (jobData : SidekiqJob) :
    (GRPCClient.buildRequest jobData).Args = jobData.Args.map goFormatV ∧
    (∀ s, goFormatV (GoValue.str s) = s) ∧
    (∀ b, goFormatV (GoValue.boolean b) = if b then "true" else "false") ∧
    goFormatV GoValue.null = "<nil>" ∧
    goFormatV GoValue.null ≠ specCanonicalProjection GoValue.null ∧
    (∀ n : Int, n.natAbs < 1000000 → goFormatV (GoValue.num n) = toString n) ∧
    goFormatV (GoValue.num 999999) = "999999" ∧
    goFormatV (GoValue.num 1000000) = "1e+06" ∧
    goFormatV (GoValue.num 1234567) = "1.234567e+06" ∧
    goFormatV (GoValue.num (-2500000)) = "-2.5e+06" ∧
    goFormatV (GoValue.num 100000000000) = "1e+11" := by
  refine ⟨rfl, fun s => rfl, fun b => rfl, rfl, by decide, ?_, ?_, ?_, ?_, ?_, ?_⟩
  · intro n hn
    simp [goFormatV, goFormatIntegralFloat, hn]
  · decide
  · decide
  · decide
  · decide
  · decide

/-- Witness for `grpc_arg_projection`: the sample job's mixed string and
numeric arguments are projected to their pass-through and plain-decimal
forms. -/
theorem grpc_arg_projection_witness :
    (GRPCClient.buildRequest sampleJob).Args = ["User", "2"] ∧
    goFormatV (GoValue.num 2) = "2" :=
  ⟨by
    rw [(grpc_arg_projection sampleJob).1]
    decide,
   by
    rw [(grpc_arg_projection sampleJob).2.2.2.2.2.1 2 (by decide)]
    decide⟩

end Gokiq
